import Mathlib

set_option linter.unusedVariables false
set_option linter.unusedSectionVars false

/-!
Shallow embedding of the terminal input-buffering core:
`src/inc/til/ring_buffer.h` (generic circular buffer) and
`src/host/inputBuffer.cpp` (the console input buffer built on top of it).

Machine memory is modelled as a `List` of elements together with a default
("junk") value standing for uninitialized slots; pointers of the C++ become
indices into the allocation.
-/

namespace TerminalHost

/-- Reading one slot of an allocation; a slot that was never written holds the
junk value `default`. -/
def lget {T : Type} [Inhabited T] (l : List T) (i : Nat) : T := l.getD i default

/-- Storing into one slot of an allocation. A store past the end of the
allocation is dropped (the C++ would be undefined behavior; no evaluated trace
stores out of bounds). -/
def lset {T : Type} : List T → Nat → T → List T
  | [], _, _ => []
  | _ :: xs, 0, v => v :: xs
  | x :: xs, n + 1, v => x :: lset xs n v

/-- Memcpy of `len` elements from `src` (starting at `srcOff`) into `dst`
(starting at `dstOff`); models the `_copy` helper of `til::ring_buffer`. -/
def copyFrom {T : Type} [Inhabited T] (dst : List T) (dstOff : Nat) (src : List T) (srcOff : Nat) : Nat → List T
  | 0 => dst
  | n + 1 => lset (copyFrom dst dstOff src srcOff n) (dstOff + n) (lget src (srcOff + n))

/-- Memcpy of a caller-supplied buffer (given as the list of its elements)
into an allocation at offset `off`. -/
def copyList {T : Type} : List T → Nat → List T → List T
  | dst, _, [] => dst
  | dst, off, x :: xs => copyList (lset dst off x) (off + 1) xs

/-- Reading `n` consecutive slots starting at `i`. -/
def sliceOf {T : Type} [Inhabited T] (data : List T) (i n : Nat) : List T :=
  (List.range n).map fun k => lget data (i + k)

/-- Model of `til::ring_buffer<T>` (src/inc/til/ring_buffer.h). `data` is the
current allocation (length `capacity`); `reader`, `writer` are the cursor
offsets from `_beg`; `size` counts the live elements. -/
structure ring_buffer (T : Type) where
  data : List T
  reader : Nat
  writer : Nat
  size : Nat
  capacity : Nat
deriving DecidableEq

namespace ring_buffer

variable {T : Type} [Inhabited T]

/-- A freshly constructed ring buffer: null pointers, zero size/capacity. -/
def init : ring_buffer T := ⟨[], 0, 0, 0, 0⟩

/-- Mirrors `empty()`. -/
def isEmpty (rb : ring_buffer T) : Bool := rb.size = 0

/-- Mirrors `clear()`: both cursors back to `_beg`, size zero; the allocation
is kept. -/
def clear (rb : ring_buffer T) : ring_buffer T := { rb with writer := 0, reader := 0, size := 0 }

/-- Mirrors `_grow(new_size)`: allocate
`max(16, max(new_size, capacity + capacity / 2))` slots of junk, copy
`[_reader, _end)` then `[_beg, _writer)` into the front, and reset the cursors
exactly as the source does. -/
def _grow (rb : ring_buffer T) (new_size : Nat) : ring_buffer T :=
  let new_cap := max 16 (max new_size (rb.capacity + rb.capacity / 2))
  let data0 := List.replicate new_cap (default : T)
  let n1 := rb.capacity - rb.reader
  let data1 := copyFrom data0 0 rb.data rb.reader n1
  let data2 := copyFrom data1 n1 rb.data 0 rb.writer
  { data := data2, reader := 0, writer := n1 + rb.writer, size := rb.size, capacity := new_cap }

/-- Mirrors `write(const T&)` (single item). -/
def write1 (rb : ring_buffer T) (x : T) : ring_buffer T :=
  let new_size := rb.size + 1
  let rb := if rb.capacity < new_size then rb._grow new_size else rb
  let data := lset rb.data rb.writer x
  let writer := rb.writer + 1
  let writer := if writer = rb.capacity then 0 else writer
  { rb with data := data, writer := writer, size := new_size }

/-- Mirrors `write(const T*, size_t)` (bulk). `available = _end - _writer` is a
`size_t` pointer difference; in every state evaluated here `writer ≤ capacity`,
so plain truncated subtraction is faithful. -/
def writeN (rb : ring_buffer T) (xs : List T) : ring_buffer T :=
  let count := xs.length
  let new_size := rb.size + count
  let rb := if rb.capacity < new_size then rb._grow new_size else rb
  let available := rb.capacity - rb.writer
  if count < available then
    { rb with data := copyList rb.data rb.writer xs, writer := rb.writer + count, size := new_size }
  else
    let data := copyList rb.data rb.writer (xs.take available)
    let data := copyList data 0 (xs.drop available)
    { rb with data := data, writer := count - available, size := new_size }

/-- Mirrors `last_written()`, as the index of the most recently written
element (`nullptr` becomes `none`). -/
def last_writtenIdx (rb : ring_buffer T) : Option Nat :=
  if rb.size = 0 then none
  else some ((if rb.writer = 0 then rb.capacity else rb.writer) - 1)

/-- Mirrors `peek()`, as the index of the next element to read. -/
def peekIdx (rb : ring_buffer T) : Option Nat :=
  if rb.size = 0 then none else some rb.reader

/-- Dereferencing a pointer into the ring storage. -/
def get (rb : ring_buffer T) (i : Nat) : T := lget rb.data i

/-- Writing through a pointer into the ring storage (the in-place span-length
mutations done by the input buffer). -/
def setAt (rb : ring_buffer T) (i : Nat) (v : T) : ring_buffer T :=
  { rb with data := lset rb.data i v }

/-- Mirrors `read(T&)` (single item). -/
def read1 (rb : ring_buffer T) : Option T × ring_buffer T :=
  if rb.size = 0 then (none, rb)
  else
    let x := lget rb.data rb.reader
    let r := rb.reader + 1
    let r := if r = rb.capacity then 0 else r
    (some x, { rb with reader := r, size := rb.size - 1 })

/-- Mirrors `read(T*, size_t)` (bulk): copies `min(size, count)` elements in at
most two contiguous pieces and advances the read cursor. -/
def readN (rb : ring_buffer T) (count0 : Nat) : List T × ring_buffer T :=
  let count := min rb.size count0
  let available := rb.capacity - rb.reader
  if count < available then
    (sliceOf rb.data rb.reader count, { rb with reader := rb.reader + count, size := rb.size - count })
  else
    let remaining := count - available
    (sliceOf rb.data rb.reader available ++ sliceOf rb.data 0 remaining,
     { rb with reader := remaining, size := rb.size - count })

/-- Mirrors `advance(count)`: skip `min(size, count)` elements without
copying. -/
def advance (rb : ring_buffer T) (count0 : Nat) : ring_buffer T :=
  let count := min rb.size count0
  let available := rb.capacity - rb.reader
  let reader := if count < available then rb.reader + count else count - available
  { rb with reader := reader, size := rb.size - count }

/-- The live contents, in read order: element `k` sits at offset
`(reader + k) % capacity`. -/
def ringList (rb : ring_buffer T) : List T :=
  (List.range rb.size).map fun k => lget rb.data ((rb.reader + k) % rb.capacity)

end ring_buffer

/-- Span kind tag (`InputBuffer::SpanType`). -/
inductive SpanType
  | Record
  | Text
deriving DecidableEq

instance : Inhabited SpanType := ⟨SpanType.Record⟩

/-- A run descriptor in the span ring. -/
structure Span where
  type : SpanType
  length : Nat
deriving DecidableEq

instance : Inhabited Span := ⟨⟨SpanType.Record, 0⟩⟩

/-- Value of the Win32 `KEY_EVENT` tag. -/
def KEY_EVENT : Nat := 1

/-- Model of `INPUT_RECORD` keeping the fields the input buffer inspects
(`EventType`, `Event.KeyEvent.bKeyDown`, `Event.KeyEvent.uChar.UnicodeChar`)
plus the remaining key-event fields so distinct records stay distinct. -/
structure InputRecord where
  eventType : Nat
  keyDown : Bool
  repeatCount : Nat
  virtualKeyCode : Nat
  virtualScanCode : Nat
  unicodeChar : Nat
  controlKeyState : Nat
deriving DecidableEq

instance : Inhabited InputRecord := ⟨⟨0, false, 0, 0, 0, 0, 0⟩⟩

/-- Modelled from the spec: `SynthesizeKeyEvent` (declared outside src/) builds
a key-event record from its six arguments; the record-view read calls it as
`SynthesizeKeyEvent(true, 1, 0, 0, ch, 0)` to make one key-down event carrying
the text code unit `ch`. -/
def SynthesizeKeyEvent (keyDown : Bool) (repeatCount virtualKeyCode virtualScanCode unicodeChar controlKeyState : Nat) : InputRecord :=
  ⟨KEY_EVENT, keyDown, repeatCount, virtualKeyCode, virtualScanCode, unicodeChar, controlKeyState⟩

/-- The four exclusive reading modes (`InputBuffer::ReadingMode`). -/
inductive ReadingMode
  | StringA
  | StringW
  | InputEventsA
  | InputEventsW
deriving DecidableEq

/-- Calls the input buffer makes into its collaborators: `SetEvent` /
`ResetEvent` on the OS readiness object `hInputEvent`, and
`WakeUpReadersWaitingForData` on the wait queue. -/
inductive Notif
  | setEvent
  | resetEvent
  | wakeReaders
deriving DecidableEq

/-- Serialization of wide code units into bytes (memcpy order, two bytes per
`wchar_t`); used to model byte-granular `til::bytes_transfer` out of a wide
string. -/
def wcharBytes (ws : List Nat) : List Nat :=
  (ws.map fun w => [w % 256, w / 256 % 256]).flatten

/-- State of `InputBuffer` (src/host/inputBuffer.cpp). The conversion caches
keep both the owned buffer (`_cachedTextA` / `_cachedTextW`) and the unread
suffix view (`_cachedTextReaderA` / `_cachedTextReaderW`); both are stored as
byte lists, wide text serialized via `wcharBytes`. -/
structure InputBuffer where
  spans : ring_buffer Span
  records : ring_buffer InputRecord
  text : ring_buffer Nat
  readingMode : ReadingMode
  cachedTextA : List Nat
  cachedTextReaderA : List Nat
  cachedTextW : List Nat
  cachedTextReaderW : List Nat
  cachedInputEvents : List InputRecord
  writePartialByteSequenceAvailable : Bool
  writePartialByteSequence : InputRecord
deriving DecidableEq

namespace InputBuffer

/-- Modelled from the spec (the class header is outside src/): a fresh input
buffer has empty rings, empty caches, no pending partial write, and the
narrow-string reading mode active. -/
def init : InputBuffer :=
  ⟨ring_buffer.init, ring_buffer.init, ring_buffer.init, ReadingMode.StringA,
    [], [], [], [], [], false, default⟩

/-- Mirrors `_switchReadingModeSlowPath`: discard both caches (owned buffers
and reader views) and adopt the new mode. -/
def _switchReadingModeSlowPath (s : InputBuffer) (mode : ReadingMode) : InputBuffer :=
  { s with cachedTextA := [], cachedTextReaderA := [],
           cachedTextW := [], cachedTextReaderW := [],
           readingMode := mode }

/-- Mirrors `_switchReadingMode`: the slow path runs only when the mode
actually changes. -/
def _switchReadingMode (s : InputBuffer) (mode : ReadingMode) : InputBuffer :=
  if s.readingMode ≠ mode then s._switchReadingModeSlowPath mode else s

/-- Mirrors `_writeSpan(type, length)`: merge into the last span when the kind
matches, otherwise push a fresh `{type, 0}` span; then add `length` in place.
Returns the notifications issued: `SetEvent` exactly on the empty-to-nonempty
transition, then the unconditional waiter wake-up. -/
def _writeSpan (s : InputBuffer) (type : SpanType) (length : Nat) : InputBuffer × List Notif :=
  let lastIdx := s.spans.last_writtenIdx
  let initiallyEmpty := lastIdx.isNone
  let spans :=
    match lastIdx with
    | some i => if (s.spans.get i).type = type then s.spans else s.spans.write1 ⟨type, 0⟩
    | none => s.spans.write1 ⟨type, 0⟩
  let i := spans.last_writtenIdx.getD 0
  let sp := spans.get i
  let spans := spans.setAt i ⟨sp.type, sp.length + length⟩
  ({ s with spans := spans },
    (if initiallyEmpty then [Notif.setEvent] else []) ++ [Notif.wakeReaders])

/-- Mirrors `Write(const std::span<const INPUT_RECORD>&)`. -/
def WriteRecords (s : InputBuffer) (records : List InputRecord) : InputBuffer × List Notif :=
  if records = [] then (s, [])
  else
    let s := { s with records := s.records.writeN records }
    s._writeSpan SpanType.Record records.length

/-- Mirrors `Write(const INPUT_RECORD&)`. -/
def WriteRecord (s : InputBuffer) (r : InputRecord) : InputBuffer × List Notif :=
  s.WriteRecords [r]

/-- Possible behaviors of the external allocator during `Write(text)`; the two
failure points are the only statements inside the `try` block that can throw
(`_grow`'s allocation in `_text.write`, then in `_spans.write`). Modelled from
the spec, which makes allocation failure the error source of this path. -/
inductive TextAllocOutcome
  | ok
  | failTextAppend
  | failSpanWrite
deriving DecidableEq

/-- Body of `Write(const std::wstring_view&)` without its `CATCH_LOG()`
handler: `.ok` is normal completion, `.error` carries the state at the point
the exception escapes the body (an allocation throw leaves the failing ring
untouched, so partial effects are exactly the ones already committed). -/
def writeTextBody (s : InputBuffer) (text : List Nat) (f : TextAllocOutcome) :
    Except InputBuffer (InputBuffer × List Notif) :=
  if text = [] then .ok (s, [])
  else
    match f with
    | .failTextAppend => .error s
    | .failSpanWrite => .error { s with text := s.text.writeN text }
    | .ok =>
      let s := { s with text := s.text.writeN text }
      .ok (s._writeSpan SpanType.Text text.length)

/-- Mirrors `Write(const std::wstring_view&)` including `CATCH_LOG()`: a throw
is swallowed and the call returns normally with whatever state was already
committed and no notifications. -/
def WriteText (s : InputBuffer) (text : List Nat) (f : TextAllocOutcome) : InputBuffer × List Notif :=
  match writeTextBody s text f with
  | .ok r => r
  | .error sPartial => (sPartial, [])

/-- Mirrors `Flush()`: clear all three rings and reset the readiness object. -/
def Flush (s : InputBuffer) : InputBuffer × List Notif :=
  ({ s with spans := s.spans.clear, records := s.records.clear, text := s.text.clear },
    [Notif.resetEvent])

/-- Mirrors `FlushAllButKeys()`: the observed body is empty. -/
def FlushAllButKeys (s : InputBuffer) : InputBuffer := s

/-- Mirrors `GetNumberOfReadyEvents()`: the observed body returns 0. -/
def GetNumberOfReadyEvents (s : InputBuffer) : Nat := 0

/-- Mirrors `IsWritePartialByteSequenceAvailable()`. -/
def IsWritePartialByteSequenceAvailable (s : InputBuffer) : Bool :=
  s.writePartialByteSequenceAvailable

/-- Mirrors `FetchWritePartialByteSequence()`: clears the flag, returns the
slot. -/
def FetchWritePartialByteSequence (s : InputBuffer) : InputBuffer × InputRecord :=
  ({ s with writePartialByteSequenceAvailable := false }, s.writePartialByteSequence)

/-- Mirrors `StoreWritePartialByteSequence(event)`: overwrites
unconditionally. -/
def StoreWritePartialByteSequence (s : InputBuffer) (event : InputRecord) : InputBuffer :=
  { s with writePartialByteSequenceAvailable := true, writePartialByteSequence := event }

/-- Inner loop of the Record arm of `Read(wchar_t view)`: pull records one at
a time, emitting a character only for key-down events with a non-null
character; every pulled record advances the record ring and decrements the
front span's length in place. Recursion is on the span length, which strictly
decreases on every iteration that passes the peek. `i` is the index of the
front span inside the span ring. -/
def readCharRecordLoop (i : Nat) :
    Nat → InputBuffer → List Nat → Nat → InputBuffer × List Nat × Nat
  | 0, s, out, remaining => (s, out, remaining)
  | len + 1, s, out, remaining =>
    if remaining = 0 then (s, out, remaining)
    else
      match s.records.peekIdx with
      | none => (s, out, remaining)
      | some j =>
        let r := s.records.get j
        let hit := r.eventType = KEY_EVENT ∧ r.keyDown = true ∧ r.unicodeChar ≠ 0
        let out := if hit then out ++ [r.unicodeChar] else out
        let remaining := if hit then remaining - 1 else remaining
        let s := { s with records := s.records.advance 1 }
        let ty := (s.spans.get i).type
        let s := { s with spans := s.spans.setAt i ⟨ty, len⟩ }
        readCharRecordLoop i len s out remaining

/-- Outer loop of `Read(bool, bool, void*, size_t)` (the wide character view).
`fuel` bounds the number of outer iterations; the C++ loop can fail to make
progress (and hang) on states whose span index overstates a ring, so each fuel
step is one genuine iteration of the source loop. -/
def readCharLoop : Nat → InputBuffer → List Nat → Nat → InputBuffer × List Nat × Nat
  | 0, s, out, remaining => (s, out, remaining)
  | fuel + 1, s, out, remaining =>
    if remaining = 0 then (s, out, remaining)
    else
      match s.spans.peekIdx with
      | none => (s, out, remaining)
      | some i =>
        let sp := s.spans.get i
        match sp.type with
        | SpanType.Record =>
          let (s, out, remaining) := readCharRecordLoop i sp.length s out remaining
          let s :=
            if (s.spans.get i).length = 0 then { s with spans := s.spans.advance 1 } else s
          readCharLoop fuel s out remaining
        | SpanType.Text =>
          let can := min remaining sp.length
          let (chunk, text) := s.text.readN can
          let s := { s with text := text }
          let out := out ++ chunk
          let remaining := remaining - can
          let s := { s with spans := s.spans.setAt i ⟨sp.type, sp.length - can⟩ }
          let s :=
            if sp.length - can = 0 then { s with spans := s.spans.advance 1 } else s
          readCharLoop fuel s out remaining

/-- Mirrors `InputBuffer::Read(bool wide, bool peek, void* data, size_t
capacity)`: narrow reads return 0 immediately; otherwise walk the spans.
Returns the new state, the characters actually stored, and the returned
count `capacity - remaining`. The `peek` argument is accepted and unused,
exactly as in the source (warning 4100 is disabled there). -/
def ReadCharView (s : InputBuffer) (wide peek : Bool) (capacity fuel : Nat) :
    InputBuffer × List Nat × Nat :=
  if !wide then (s, [], 0)
  else
    let (s, out, remaining) := readCharLoop fuel s [] capacity
    (s, out, capacity - remaining)

/-- Inner loop of the Text arm of `Read(INPUT_RECORD*)`: synthesize one
key-down record per text code unit. The source peeks `_text` but then calls
`_records.advance(1)`, so the text ring is never consumed here; the model
reproduces that verbatim. -/
def readRecordTextLoop (i : Nat) :
    Nat → InputBuffer → List InputRecord → Nat → InputBuffer × List InputRecord × Nat
  | 0, s, out, remaining => (s, out, remaining)
  | len + 1, s, out, remaining =>
    if remaining = 0 then (s, out, remaining)
    else
      match s.text.peekIdx with
      | none => (s, out, remaining)
      | some j =>
        let ch := s.text.get j
        let out := out ++ [SynthesizeKeyEvent true 1 0 0 ch 0]
        let remaining := remaining - 1
        let s := { s with records := s.records.advance 1 }
        let ty := (s.spans.get i).type
        let s := { s with spans := s.spans.setAt i ⟨ty, len⟩ }
        readRecordTextLoop i len s out remaining

/-- Outer loop of `Read(bool, bool, INPUT_RECORD*, size_t)` (the record
view). -/
def readRecordLoop : Nat → InputBuffer → List InputRecord → Nat → InputBuffer × List InputRecord × Nat
  | 0, s, out, remaining => (s, out, remaining)
  | fuel + 1, s, out, remaining =>
    if remaining = 0 then (s, out, remaining)
    else
      match s.spans.peekIdx with
      | none => (s, out, remaining)
      | some i =>
        let sp := s.spans.get i
        match sp.type with
        | SpanType.Record =>
          let can := min remaining sp.length
          let (chunk, records) := s.records.readN can
          let s := { s with records := records }
          let out := out ++ chunk
          let remaining := remaining - can
          let s := { s with spans := s.spans.setAt i ⟨sp.type, sp.length - can⟩ }
          let s :=
            if sp.length - can = 0 then { s with spans := s.spans.advance 1 } else s
          readRecordLoop fuel s out remaining
        | SpanType.Text =>
          let (s, out, remaining) := readRecordTextLoop i sp.length s out remaining
          let s :=
            if (s.spans.get i).length = 0 then { s with spans := s.spans.advance 1 } else s
          readRecordLoop fuel s out remaining

/-- Mirrors `InputBuffer::Read(bool wide, bool peek, INPUT_RECORD* data,
size_t capacity)`. -/
def ReadRecordView (s : InputBuffer) (wide peek : Bool) (capacity fuel : Nat) :
    InputBuffer × List InputRecord × Nat :=
  if !wide then (s, [], 0)
  else
    let (s, out, remaining) := readRecordLoop fuel s [] capacity
    (s, out, capacity - remaining)

end InputBuffer

/-- High surrogate test (`0xD800 ≤ u < 0xDC00`). -/
def isHighSurrogate (u : Nat) : Bool := decide (0xD800 ≤ u ∧ u < 0xDC00)

/-- Low surrogate test (`0xDC00 ≤ u < 0xE000`). -/
def isLowSurrogate (u : Nat) : Bool := decide (0xDC00 ≤ u ∧ u < 0xE000)

/-- Modelled from the spec: `til::utf16_iterator` (outside src/) walks the
source one character at a time, where a character is one code unit or a
high/low surrogate pair ("one (possibly multi-code-unit) character at a
time"). -/
def utf16Segments : List Nat → List (List Nat)
  | [] => []
  | [u] => [[u]]
  | u :: v :: rest =>
    if isHighSurrogate u ∧ isLowSurrogate v then [u, v] :: utf16Segments rest
    else [u] :: utf16Segments (v :: rest)

/-- One-shot conversion of a whole source with an unbounded target: the
concatenation of the per-character encodings. `WideCharToMultiByte` is the
external code-page service; it enters the model as the parameter `enc`. -/
def encodeAll (enc : List Nat → List Nat) (src : List Nat) : List Nat :=
  ((utf16Segments src).map enc).flatten

namespace InputBuffer

/-- Mirrors `ConsumeCached(bool isUnicode, std::span<char>& target)`: switch
the reading mode, then drain the matching cache reader into the target
(`til::bytes_transfer` copies `min` and advances both views); release the
owned buffer once the reader empties. Returns the new state, the bytes
delivered, and the free space left in the target. -/
def ConsumeCached (s : InputBuffer) (isUnicode : Bool) (cap : Nat) :
    InputBuffer × List Nat × Nat :=
  let s := s._switchReadingMode (if isUnicode then ReadingMode.StringW else ReadingMode.StringA)
  if isUnicode then
    if s.cachedTextReaderW ≠ [] then
      let n := min cap s.cachedTextReaderW.length
      let out := s.cachedTextReaderW.take n
      let reader := s.cachedTextReaderW.drop n
      let s := { s with cachedTextReaderW := reader }
      let s := if reader = [] then { s with cachedTextW := [] } else s
      (s, out, cap - n)
    else (s, [], cap)
  else
    if s.cachedTextReaderA ≠ [] then
      let n := min cap s.cachedTextReaderA.length
      let out := s.cachedTextReaderA.take n
      let reader := s.cachedTextReaderA.drop n
      let s := { s with cachedTextReaderA := reader }
      let s := if reader = [] then { s with cachedTextA := [] } else s
      (s, out, cap - n)
    else (s, [], cap)

/-- Result of one `Consume` call: final state, the trimmed source view, all
bytes written into the target (cache replay included), and the free target
space left. -/
structure ConsumeResult where
  state : InputBuffer
  source : List Nat
  output : List Nat
  targetFree : Nat
deriving DecidableEq

/-- Slow path of the narrow arm of `Consume`: character-wise conversion.
`read` counts loop iterations (`++read` in the source) and the caller trims
the source by that count of code units. When the target fills, the unconsumed
tail of the current character's encoding is stored in the narrow cache. -/
def consumeSlowLoop (enc : List Nat → List Nat) :
    List (List Nat) → InputBuffer → List Nat → Nat → Nat → InputBuffer × List Nat × Nat × Nat
  | [], s, out, cap, read => (s, out, cap, read)
  | seg :: rest, s, out, cap, read =>
    let b := enc seg
    let n := min cap b.length
    let out := out ++ b.take n
    let slice := b.drop n
    let cap := cap - n
    let read := read + 1
    if cap = 0 then
      let s :=
        if slice ≠ [] then { s with cachedTextA := slice, cachedTextReaderA := slice } else s
      (s, out, cap, read)
    else consumeSlowLoop enc rest s out cap read

/-- Mirrors `Consume(bool isUnicode, std::wstring_view& source,
std::span<char>& target)`. The wide arm is a direct bulk copy of the source
(modelled from the spec; `til::bytes_transfer` lives outside src/). The narrow
arm batch-converts when everything fits (`WideCharToMultiByte` succeeds iff
the full conversion fits the target) and otherwise falls back to the
character-wise slow path. -/
def Consume (enc : List Nat → List Nat) (s : InputBuffer) (isUnicode : Bool)
    (source : List Nat) (cap : Nat) : ConsumeResult :=
  let (s, out0, cap0) := s.ConsumeCached isUnicode cap
  if source = [] ∨ cap0 = 0 then ⟨s, source, out0, cap0⟩
  else if isUnicode then
    let n := min (cap0 / 2) source.length
    ⟨s, source.drop n, out0 ++ wcharBytes (source.take n), cap0 - 2 * n⟩
  else
    let total := encodeAll enc source
    if 0 < total.length ∧ total.length ≤ cap0 then
      ⟨s, [], out0 ++ total, cap0 - total.length⟩
    else
      let (s, out, cap1, read) := consumeSlowLoop enc (utf16Segments source) s out0 cap0 0
      ⟨s, source.drop read, out, cap1⟩

/-- Mirrors `Cache(std::wstring_view source)`: append to the owned wide cache
and re-point the reader at the same unread offset. -/
def Cache (s : InputBuffer) (source : List Nat) : InputBuffer :=
  let off := s.cachedTextW.length - s.cachedTextReaderW.length
  let owned := s.cachedTextW ++ wcharBytes source
  { s with cachedTextW := owned, cachedTextReaderW := owned.drop off }

/-- Mirrors `ConsumeCached(bool, size_t, InputEventQueue&)`: the observed body
returns 0 and touches nothing. -/
def ConsumeCachedEvents (s : InputBuffer) (isUnicode : Bool) (count : Nat) :
    InputBuffer × List InputRecord × Nat :=
  (s, [], 0)

/-- Mirrors `PeekCached(bool, size_t, InputEventQueue&)`: switch to the
event-record mode, copy up to `count` cached events. -/
def PeekCached (s : InputBuffer) (isUnicode : Bool) (count : Nat) :
    InputBuffer × List InputRecord × Nat :=
  let s := s._switchReadingMode
    (if isUnicode then ReadingMode.InputEventsW else ReadingMode.InputEventsA)
  let taken := s.cachedInputEvents.take count
  (s, taken, taken.length)

/-- Mirrors `Cache(bool, InputEventQueue&, size_t)`: switch to the
event-record mode and truncate `source` down to `expectedSourceSize`. -/
def CacheEvents (s : InputBuffer) (isUnicode : Bool) (source : List InputRecord)
    (expectedSourceSize : Nat) : InputBuffer × List InputRecord :=
  let s := s._switchReadingMode
    (if isUnicode then ReadingMode.InputEventsW else ReadingMode.InputEventsA)
  if expectedSourceSize < source.length then (s, source.take expectedSourceSize) else (s, source)

/-- Sum of the lengths of the Text-kind spans currently live in the span
ring. -/
def textSpanLenSum (s : InputBuffer) : Nat :=
  (((ring_buffer.ringList s.spans).filter fun sp => sp.type = SpanType.Text).map Span.length).sum

/-- Sum of the lengths of the Record-kind spans currently live in the span
ring. -/
def recordSpanLenSum (s : InputBuffer) : Nat :=
  (((ring_buffer.ringList s.spans).filter fun sp => sp.type = SpanType.Record).map Span.length).sum

end InputBuffer

section ClaimScenarios

open InputBuffer

/-- C1 failing input: one single-item write, then a bulk write of 16 items that
forces a growth while the live region does not wrap. -/
def c1ring : ring_buffer Nat :=
  (ring_buffer.init.write1 100).writeN [1, 2, 3, 4, 5, 6, 7, 8, 9, 10, 11, 12, 13, 14, 15, 16]

/-- C2 failing input: write the single text unit 120 into an empty buffer,
then perform one record-view read of capacity 1. -/
def c2state : InputBuffer :=
  (ReadRecordView (WriteText InputBuffer.init [120] TextAllocOutcome.ok).1 true false 1 10).1

/-- Concrete key-down record R1 used by the C3 scenario. -/
def c3R1 : InputRecord := ⟨KEY_EVENT, true, 1, 65, 30, 97, 0⟩

/-- Concrete key-down record R2 used by the C3 scenario. -/
def c3R2 : InputRecord := ⟨KEY_EVENT, true, 1, 66, 48, 98, 0⟩

/-- C3 failing input: records R1, text 120, record R2 written into an empty
buffer (spans Record:1, Text:1, Record:1), then a record-view read with
capacity 3. -/
def c3read : InputBuffer × List InputRecord × Nat :=
  ReadRecordView
    (WriteRecord (WriteText (WriteRecord InputBuffer.init c3R1).1 [120] TextAllocOutcome.ok).1 c3R2).1
    true false 3 10

/-- Concrete encoding for the C4 scenario: the surrogate pair
(0xD800, 0xDC00) encodes to four bytes (UTF-8 of U+10000); a lone unit below
128 encodes to itself and anything else to the one replacement byte 63. -/
def encEx : List Nat → List Nat
  | [55296, 56320] => [240, 144, 128, 128]
  | [c] => if c < 128 then [c] else [63]
  | _ => [63]

/-- C4 failing input, first call: the surrogate pair with a 3-byte target. -/
def c4call1 : ConsumeResult := Consume encEx InputBuffer.init false [55296, 56320] 3

/-- C4 failing input, second call: resume with an 8-byte target. -/
def c4call2 : ConsumeResult := Consume encEx c4call1.state false c4call1.source 8

/-- C6 failing input: a single record written into an empty buffer. -/
def c6state : InputBuffer := (WriteRecord InputBuffer.init c3R1).1

/-- C5 scenario state: a narrow-text consume that left a cached remainder
(byte 128) in the narrow conversion cache. -/
def c5cached : InputBuffer := (Consume encEx InputBuffer.init false [55296, 56320] 3).state

/-- C7 example state: Write(L"ab") then Write(L"cd") with no intervening
record write. -/
def c7twoTexts : InputBuffer :=
  (WriteText (WriteText InputBuffer.init [97, 98] TextAllocOutcome.ok).1 [99, 100]
    TextAllocOutcome.ok).1

/-- C7 example state: Write(L"ab"), Write(record), Write(L"cd"). -/
def c7interleaved : InputBuffer :=
  (WriteText (WriteRecord (WriteText InputBuffer.init [97, 98] TextAllocOutcome.ok).1 c3R1).1
    [99, 100] TextAllocOutcome.ok).1

end ClaimScenarios

section Invariants

open InputBuffer

/-- Well-formedness of a ring buffer as maintained through single-item writes:
the allocation length matches `capacity`, at most `capacity` elements are
live, the read cursor is inside the allocation, and the write cursor sits
`size` slots after the read cursor (mod `capacity`). -/
def ring_buffer.WF {T : Type} (rb : ring_buffer T) : Prop :=
  rb.data.length = rb.capacity ∧
  rb.size ≤ rb.capacity ∧
  (rb.capacity = 0 → rb.reader = 0) ∧
  (rb.capacity ≠ 0 → rb.reader < rb.capacity) ∧
  rb.writer = (rb.reader + rb.size) % rb.capacity

/-- The kinds of the live spans, in read order. -/
def spanKinds (s : InputBuffer) : List SpanType :=
  (ring_buffer.ringList s.spans).map Span.type

/-- Adjacent-distinctness of a kind sequence. -/
def adjOk : List SpanType → Bool
  | [] => true
  | [_] => true
  | a :: b :: rest => decide (a ≠ b) && adjOk (b :: rest)

/-- The span-merge invariant: the span ring is well formed and no two
adjacent live spans share a kind. -/
def SpanWF (s : InputBuffer) : Prop := s.spans.WF ∧ adjOk (spanKinds s) = true

/-- States reachable from a fresh input buffer through the public interface.
The read entry points carry the loop fuel: every fuel value yields a genuine
(possibly mid-loop) state of the source program. -/
inductive Reachable : InputBuffer → Prop where
  | init : Reachable InputBuffer.init
  | writeRecords {s} (rs : List InputRecord) : Reachable s → Reachable (WriteRecords s rs).1
  | writeText {s} (txt : List Nat) (f : TextAllocOutcome) :
      Reachable s → Reachable (WriteText s txt f).1
  | readChar {s} (wide peek : Bool) (cap fuel : Nat) :
      Reachable s → Reachable (ReadCharView s wide peek cap fuel).1
  | readRecord {s} (wide peek : Bool) (cap fuel : Nat) :
      Reachable s → Reachable (ReadRecordView s wide peek cap fuel).1
  | flush {s} : Reachable s → Reachable (Flush s).1
  | flushAllButKeys {s} : Reachable s → Reachable (FlushAllButKeys s)
  | consume {s} (enc : List Nat → List Nat) (isUnicode : Bool) (source : List Nat) (cap : Nat) :
      Reachable s → Reachable (Consume enc s isUnicode source cap).state
  | consumeCached {s} (isUnicode : Bool) (cap : Nat) :
      Reachable s → Reachable (s.ConsumeCached isUnicode cap).1
  | cacheText {s} (source : List Nat) : Reachable s → Reachable (s.Cache source)
  | consumeCachedEvents {s} (isUnicode : Bool) (count : Nat) :
      Reachable s → Reachable (s.ConsumeCachedEvents isUnicode count).1
  | peekCached {s} (isUnicode : Bool) (count : Nat) :
      Reachable s → Reachable (s.PeekCached isUnicode count).1
  | cacheEvents {s} (isUnicode : Bool) (source : List InputRecord) (expected : Nat) :
      Reachable s → Reachable (s.CacheEvents isUnicode source expected).1
  | storePartial {s} (e : InputRecord) : Reachable s → Reachable (s.StoreWritePartialByteSequence e)
  | fetchPartial {s} : Reachable s → Reachable (s.FetchWritePartialByteSequence).1

end Invariants

section MemoryLemmas

theorem lset_nil {T : Type} (i : Nat) (v : T) : lset [] i v = [] := rfl

theorem length_lset {T : Type} (l : List T) (i : Nat) (v : T) :
    (lset l i v).length = l.length := by
  induction l generalizing i with
  | nil => rfl
  | cons x xs ih => cases i with
    | zero => rfl
    | succ n => simp [lset, ih]

theorem lget_lset_eq {T : Type} [Inhabited T] (l : List T) (i : Nat) (v : T) (h : i < l.length) :
    lget (lset l i v) i = v := by
  induction l generalizing i with
  | nil => simp at h
  | cons x xs ih => cases i with
    | zero => rfl
    | succ n => simpa [lset, lget, List.getD] using ih n (by simpa using h)

theorem lget_lset_ne {T : Type} [Inhabited T] (l : List T) (i j : Nat) (v : T) (h : i ≠ j) :
    lget (lset l i v) j = lget l j := by
  induction l generalizing i j with
  | nil => rfl
  | cons x xs ih => cases i with
    | zero => cases j with
      | zero => exact absurd rfl h
      | succ m => rfl
    | succ n => cases j with
      | zero => rfl
      | succ m =>
        simpa [lset, lget, List.getD] using ih n m (by omega)

theorem lget_replicate {T : Type} [Inhabited T] (n i : Nat) :
    lget (List.replicate n (default : T)) i = default := by
  induction n generalizing i with
  | zero => rfl
  | succ m ih => cases i with
    | zero => rfl
    | succ k => exact ih k

theorem length_copyFrom {T : Type} [Inhabited T] (dst src : List T) (o so n : Nat) :
    (copyFrom dst o src so n).length = dst.length := by
  induction n with
  | zero => rfl
  | succ m ih => simp [copyFrom, length_lset, ih]

theorem lget_copyFrom {T : Type} [Inhabited T] (dst src : List T) (o so n i : Nat)
    (h : o + n ≤ dst.length) :
    lget (copyFrom dst o src so n) i =
      if o ≤ i ∧ i < o + n then lget src (so + (i - o)) else lget dst i := by
  induction n with
  | zero => simp only [copyFrom]; rw [if_neg (by omega)]
  | succ m ih =>
    have hm : o + m ≤ dst.length := by omega
    by_cases hi : i = o + m
    · have hlt : i < (copyFrom dst o src so m).length := by
        rw [length_copyFrom]; omega
      rw [copyFrom, ← hi, lget_lset_eq _ _ _ hlt]
      have : o ≤ i ∧ i < o + (m + 1) := by omega
      rw [if_pos this, hi]
      congr 1
      omega
    · rw [copyFrom, lget_lset_ne _ _ _ _ (fun he => hi he.symm), ih hm]
      by_cases hcond : o ≤ i ∧ i < o + m
      · rw [if_pos hcond, if_pos (by omega)]
      · rw [if_neg hcond, if_neg (by omega)]

end MemoryLemmas

section ModLemmas

theorem mod_idx_inj {c s : Nat} (r : Nat) {k d : Nat} (hk : k < s) (hd : d < s) (hs : s ≤ c)
    (hne : k ≠ d) : (r + k) % c ≠ (r + d) % c := by
  intro h
  have h2 : k ≡ d [MOD c] := Nat.ModEq.add_left_cancel' r h
  have h3 : k % c = d % c := h2
  rw [Nat.mod_eq_of_lt (Nat.lt_of_lt_of_le hk hs),
    Nat.mod_eq_of_lt (Nat.lt_of_lt_of_le hd hs)] at h3
  exact hne h3

theorem writer_succ {r s c : Nat} (hs : s < c) :
    (if (r + s) % c + 1 = c then 0 else (r + s) % c + 1) = (r + s + 1) % c := by
  have hc : 0 < c := Nat.lt_of_le_of_lt (Nat.zero_le s) hs
  have h1 : (r + s + 1) % c = ((r + s) % c + 1) % c :=
    (Nat.ModEq.add_right 1 (Nat.mod_modEq (r + s) c)).symm
  by_cases h : (r + s) % c + 1 = c
  · rw [if_pos h, h1, h, Nat.mod_self]
  · have hlt : (r + s) % c + 1 < c := by
      have := Nat.mod_lt (r + s) hc
      omega
    rw [if_neg h, h1, Nat.mod_eq_of_lt hlt]

theorem last_idx_eq {r s c : Nat} (hr : r < c) (hs0 : s ≠ 0) :
    (if (r + s) % c = 0 then c else (r + s) % c) - 1 = (r + (s - 1)) % c := by
  have hc : 0 < c := Nat.lt_of_le_of_lt (Nat.zero_le r) hr
  by_cases h : (r + s) % c = 0
  · rw [if_pos h]
    obtain ⟨m, hm⟩ := Nat.dvd_of_mod_eq_zero h
    obtain ⟨m', rfl⟩ : ∃ m', m = m' + 1 := by
      refine ⟨m - 1, ?_⟩
      have hm0 : m ≠ 0 := by
        intro h0
        rw [h0, Nat.mul_zero] at hm
        omega
      omega
    rw [Nat.mul_succ] at hm
    have heq : r + (s - 1) = (c - 1) + c * m' := by omega
    rw [heq, Nat.add_mul_mod_self_left, Nat.mod_eq_of_lt (show c - 1 < c by omega)]
  · rw [if_neg h]
    have hdm := Nat.div_add_mod (r + s) c
    have hw : (r + s) % c < c := Nat.mod_lt _ hc
    have heq : r + (s - 1) = ((r + s) % c - 1) + c * ((r + s) / c) := by omega
    rw [heq, Nat.add_mul_mod_self_left,
      Nat.mod_eq_of_lt (show (r + s) % c - 1 < c by omega)]

end ModLemmas

section RingSpecs

open ring_buffer

variable {T : Type} [Inhabited T]

theorem ringList_length (rb : ring_buffer T) : (ringList rb).length = rb.size := by
  simp [ringList]

theorem ringList_get (rb : ring_buffer T) (k : Nat) (hk : k < (ringList rb).length) :
    (ringList rb).get ⟨k, hk⟩ = lget rb.data ((rb.reader + k) % rb.capacity) := by
  simp [ringList]

theorem ringList_nil (rb : ring_buffer T) (hs : rb.size = 0) : ringList rb = [] := by
  simp [ringList, hs]

theorem grow_capacity (rb : ring_buffer T) (n : Nat) :
    (rb._grow n).capacity = max 16 (max n (rb.capacity + rb.capacity / 2)) := rfl

theorem grow_size (rb : ring_buffer T) (n : Nat) : (rb._grow n).size = rb.size := rfl

theorem grow_reader (rb : ring_buffer T) (n : Nat) : (rb._grow n).reader = 0 := rfl

theorem grow_writer (rb : ring_buffer T) (n : Nat) :
    (rb._grow n).writer = (rb.capacity - rb.reader) + rb.writer := rfl

theorem grow_data (rb : ring_buffer T) (n : Nat) :
    (rb._grow n).data =
      copyFrom
        (copyFrom (List.replicate ((rb._grow n).capacity) (default : T)) 0 rb.data rb.reader
          (rb.capacity - rb.reader))
        (rb.capacity - rb.reader) rb.data 0 rb.writer := rfl

theorem grow_data_length (rb : ring_buffer T) (n : Nat) :
    ((rb._grow n).data).length = (rb._grow n).capacity := by
  rw [grow_data, length_copyFrom, length_copyFrom, List.length_replicate]

theorem grow_spec (rb : ring_buffer T) (n : Nat) (h : rb.WF)
    (hfull : rb.size = rb.capacity) (hn : rb.capacity < n) :
    (rb._grow n).WF ∧ ringList (rb._grow n) = ringList rb ∧
    (rb._grow n).size = rb.size ∧ rb.size < (rb._grow n).capacity := by
  obtain ⟨hlen, hsz, hr0, hrlt, hw⟩ := h
  have hcap : (rb._grow n).capacity = max 16 (max n (rb.capacity + rb.capacity / 2)) :=
    grow_capacity rb n
  have hcap' : rb.capacity < (rb._grow n).capacity := by omega
  by_cases hc : rb.capacity = 0
  · have hr : rb.reader = 0 := hr0 hc
    have hs0 : rb.size = 0 := by omega
    have hwr : rb.writer = 0 := by rw [hw, hr, hs0, hc]
    refine ⟨⟨grow_data_length rb n, by rw [grow_size]; omega, ?_, ?_, ?_⟩, ?_, grow_size rb n,
      by omega⟩
    · intro hco; rw [grow_reader]
    · intro _; rw [grow_reader]; omega
    · rw [grow_writer, grow_reader, grow_size, hwr, hs0, hc, hr]
      simp
    · rw [ringList_nil _ (by rw [grow_size]; exact hs0), ringList_nil _ hs0]
  · have hcp : 0 < rb.capacity := Nat.pos_of_ne_zero hc
    have hr : rb.reader < rb.capacity := hrlt hc
    have hwr : rb.writer = rb.reader := by
      rw [hw, hfull, Nat.add_mod_right, Nat.mod_eq_of_lt hr]
    refine ⟨⟨grow_data_length rb n, by rw [grow_size]; omega, ?_, ?_, ?_⟩, ?_, grow_size rb n,
      by omega⟩
    · intro hco; rw [grow_reader]
    · intro _; rw [grow_reader]; omega
    · rw [grow_writer, grow_reader, grow_size, hwr, hfull, Nat.zero_add,
        Nat.mod_eq_of_lt (by omega)]
      omega
    · apply List.ext_get
      · rw [ringList_length, ringList_length, grow_size]
      · intro k h1 h2
        rw [ringList_get, ringList_get]
        have hk : k < rb.size := by rw [ringList_length] at h2; exact h2
        rw [grow_data, grow_reader, grow_capacity, Nat.zero_add,
          Nat.mod_eq_of_lt (by omega : k < max 16 (max n (rb.capacity + rb.capacity / 2)))]
        have houter : (rb.capacity - rb.reader) + rb.writer
            ≤ (copyFrom (List.replicate (max 16 (max n (rb.capacity + rb.capacity / 2)))
              (default : T)) 0 rb.data rb.reader (rb.capacity - rb.reader)).length := by
          rw [length_copyFrom, List.length_replicate, hwr]; omega
        rw [lget_copyFrom _ _ _ _ _ _ houter]
        by_cases hcase : rb.capacity - rb.reader ≤ k
        · rw [if_pos ⟨hcase, by omega⟩]
          have hmod : (rb.reader + k) % rb.capacity = rb.reader + k - rb.capacity := by
            rw [Nat.mod_eq_sub_mod (by omega), Nat.mod_eq_of_lt (by omega)]
          rw [hmod]
          congr 1
          omega
        · rw [if_neg (by omega)]
          have hin : 0 + (rb.capacity - rb.reader)
              ≤ (List.replicate (max 16 (max n (rb.capacity + rb.capacity / 2)))
                (default : T)).length := by
            rw [List.length_replicate]; omega
          rw [lget_copyFrom _ _ _ _ _ _ hin, if_pos ⟨Nat.zero_le _, by omega⟩]
          rw [Nat.mod_eq_of_lt (by omega : rb.reader + k < rb.capacity)]
          simp

theorem push_spec (rb : ring_buffer T) (x : T) (h : rb.WF) (hlt : rb.size < rb.capacity) :
    ({ rb with
        data := lset rb.data rb.writer x,
        writer := (if rb.writer + 1 = rb.capacity then 0 else rb.writer + 1),
        size := rb.size + 1 } : ring_buffer T).WF ∧
    ringList ({ rb with
        data := lset rb.data rb.writer x,
        writer := (if rb.writer + 1 = rb.capacity then 0 else rb.writer + 1),
        size := rb.size + 1 } : ring_buffer T) = ringList rb ++ [x] := by
  obtain ⟨hlen, hsz, hr0, hrlt, hw⟩ := h
  have hcp : 0 < rb.capacity := by omega
  have hr : rb.reader < rb.capacity := hrlt (by omega)
  have hwlt : rb.writer < rb.capacity := by rw [hw]; exact Nat.mod_lt _ hcp
  constructor
  · refine ⟨?_, ?_, ?_, fun _ => hr, ?_⟩
    · show (lset rb.data rb.writer x).length = rb.capacity
      rw [length_lset]; exact hlen
    · show rb.size + 1 ≤ rb.capacity
      omega
    · intro hco
      exact absurd (hco : rb.capacity = 0) (show rb.capacity ≠ 0 by omega)
    · show (if rb.writer + 1 = rb.capacity then 0 else rb.writer + 1)
        = (rb.reader + (rb.size + 1)) % rb.capacity
      rw [hw, writer_succ hlt]
      rfl
  · apply List.ext_get
    · simp [ringList_length]
    · intro k h1 h2
      rw [ringList_get]
      have hk1 : k < rb.size + 1 := by
        rw [ringList_length] at h1; exact h1
      by_cases hk : k < rb.size
      · have hne : rb.writer ≠ (rb.reader + k) % rb.capacity := by
          rw [hw]
          exact mod_idx_inj rb.reader (Nat.lt_succ_self rb.size) (by omega) (by omega) (by omega)
        show lget (lset rb.data rb.writer x) ((rb.reader + k) % rb.capacity) = _
        rw [lget_lset_ne _ _ _ _ hne]
        have hkl : k < (ringList rb).length := by rw [ringList_length]; exact hk
        have hrhs : (ringList rb ++ [x]).get ⟨k, h2⟩
            = (ringList rb).get ⟨k, hkl⟩ := by
          simp [List.getElem_append_left, hkl]
        rw [hrhs, ringList_get]
      · have hkeq : k = rb.size := by omega
        subst hkeq
        show lget (lset rb.data rb.writer x) ((rb.reader + rb.size) % rb.capacity) = _
        rw [← hw, lget_lset_eq _ _ _ (by rw [hlen]; exact hwlt)]
        have hfin : (⟨rb.size, h2⟩ : Fin (ringList rb ++ [x]).length)
            = ⟨(ringList rb).length, by simp⟩ := by
          apply Fin.ext
          simp [ringList_length]
        rw [hfin]
        simp

theorem write1_spec (rb : ring_buffer T) (x : T) (h : rb.WF) :
    (rb.write1 x).WF ∧ ringList (rb.write1 x) = ringList rb ++ [x] ∧
    (rb.write1 x).size = rb.size + 1 := by
  have hsz := h.2.1
  by_cases hg : rb.capacity < rb.size + 1
  · have hfull : rb.size = rb.capacity := by omega
    obtain ⟨hWF, hRL, hszg, hltg⟩ := grow_spec rb (rb.size + 1) h hfull hg
    have hrec : rb.write1 x = { rb._grow (rb.size + 1) with
        data := lset (rb._grow (rb.size + 1)).data (rb._grow (rb.size + 1)).writer x,
        writer := if (rb._grow (rb.size + 1)).writer + 1 = (rb._grow (rb.size + 1)).capacity
          then 0 else (rb._grow (rb.size + 1)).writer + 1,
        size := (rb._grow (rb.size + 1)).size + 1 } := by
      simp only [write1, if_pos hg, grow_size]
    obtain ⟨hWF2, hRL2⟩ := push_spec (rb._grow (rb.size + 1)) x hWF (by omega)
    rw [hrec]
    refine ⟨hWF2, ?_, by simp [grow_size]⟩
    rw [hRL2, hRL]
  · have hrec : rb.write1 x = { rb with
        data := lset rb.data rb.writer x,
        writer := if rb.writer + 1 = rb.capacity then 0 else rb.writer + 1,
        size := rb.size + 1 } := by
      simp only [write1, if_neg hg]
    obtain ⟨hWF2, hRL2⟩ := push_spec rb x h (by omega)
    rw [hrec]
    exact ⟨hWF2, hRL2, rfl⟩

theorem advance_spec (rb : ring_buffer T) (n : Nat) (h : rb.WF) :
    (rb.advance n).WF ∧ ringList (rb.advance n) = (ringList rb).drop n ∧
    (rb.advance n).size = rb.size - n ∧ (rb.advance n).capacity = rb.capacity := by
  obtain ⟨hlen, hsz, hr0, hrlt, hw⟩ := h
  by_cases hc : rb.capacity = 0
  · have hr : rb.reader = 0 := hr0 hc
    have hs0 : rb.size = 0 := by omega
    have hrec : rb.advance n = rb := by
      obtain ⟨d, r, w, s, c⟩ := rb
      simp only at hr hs0 hc
      subst hr hs0 hc
      simp [advance]
    rw [hrec]
    refine ⟨⟨hlen, hsz, hr0, hrlt, hw⟩, ?_, by omega, rfl⟩
    rw [ringList_nil _ hs0, List.drop_nil]
  · have hcp : 0 < rb.capacity := Nat.pos_of_ne_zero hc
    have hr : rb.reader < rb.capacity := hrlt hc
    have hreq : (rb.advance n).reader = (rb.reader + min rb.size n) % rb.capacity := by
      simp only [advance]
      by_cases hcase : min rb.size n < rb.capacity - rb.reader
      · rw [if_pos hcase, Nat.mod_eq_of_lt (by omega)]
      · rw [if_neg hcase, Nat.mod_eq_sub_mod (by omega),
          Nat.mod_eq_of_lt (by omega)]
        omega
    have hseq : (rb.advance n).size = rb.size - min rb.size n := rfl
    have hdata : (rb.advance n).data = rb.data := rfl
    have hcap : (rb.advance n).capacity = rb.capacity := rfl
    have hweq : (rb.advance n).writer = rb.writer := rfl
    refine ⟨⟨?_, ?_, ?_, ?_, ?_⟩, ?_, by rw [hseq]; omega, hcap⟩
    · rw [hdata, hcap]; exact hlen
    · rw [hseq, hcap]; omega
    · intro hco; rw [hcap] at hco; exact absurd hco hc
    · intro _; rw [hreq, hcap]; exact Nat.mod_lt _ hcp
    · rw [hweq, hreq, hseq, hcap, hw, Nat.mod_add_mod]
      congr 1
      omega
    · apply List.ext_get
      · rw [ringList_length, List.length_drop, ringList_length, hseq]
        omega
      · intro k h1 h2
        have hkn : k < rb.size - min rb.size n := by
          rw [ringList_length, hseq] at h1; exact h1
        have hrhs : ((ringList rb).drop n).get ⟨k, h2⟩
            = (ringList rb).get ⟨n + k, by rw [ringList_length]; omega⟩ := by
          simp [List.getElem_drop]
        rw [ringList_get, hrhs, ringList_get, hdata, hcap, hreq, Nat.mod_add_mod]
        have hminn : min rb.size n = n := by omega
        rw [hminn]
        congr 2
        omega

theorem setAt_spec (rb : ring_buffer T) (j : Nat) (v : T) (h : rb.WF) (hj : j < rb.size) :
    (rb.setAt ((rb.reader + j) % rb.capacity) v).WF ∧
    ringList (rb.setAt ((rb.reader + j) % rb.capacity) v) = (ringList rb).set j v := by
  obtain ⟨hlen, hsz, hr0, hrlt, hw⟩ := h
  have hcp : 0 < rb.capacity := by omega
  constructor
  · refine ⟨?_, hsz, hr0, hrlt, hw⟩
    show (lset rb.data _ v).length = rb.capacity
    rw [length_lset]; exact hlen
  · apply List.ext_get
    · rw [ringList_length, List.length_set, ringList_length]
      rfl
    · intro k h1 h2
      have hk : k < rb.size := by rw [ringList_length] at h1; exact h1
      rw [ringList_get]
      show lget (lset rb.data ((rb.reader + j) % rb.capacity) v) ((rb.reader + k) % rb.capacity)
        = _
      by_cases hkj : j = k
      · subst hkj
        rw [lget_lset_eq _ _ _ (by rw [hlen]; exact Nat.mod_lt _ hcp)]
        have hrhs : ((ringList rb).set j v).get ⟨j, h2⟩ = v := by
          simp [List.getElem_set]
        rw [hrhs]
      · rw [lget_lset_ne _ _ _ _ (mod_idx_inj rb.reader hj hk hsz hkj)]
        have hkl : k < (ringList rb).length := by rw [ringList_length]; exact hk
        have hrhs : ((ringList rb).set j v).get ⟨k, h2⟩
            = (ringList rb).get ⟨k, hkl⟩ := by
          simp [List.getElem_set, hkj]
        rw [hrhs, ringList_get]

theorem clear_spec (rb : ring_buffer T) (h : rb.WF) :
    (rb.clear).WF ∧ ringList rb.clear = [] := by
  obtain ⟨hlen, hsz, hr0, hrlt, hw⟩ := h
  refine ⟨⟨hlen, by simp [clear], fun _ => rfl, fun hc => ?_, ?_⟩, ringList_nil _ rfl⟩
  · have hc2 : rb.capacity ≠ 0 := hc
    show 0 < rb.capacity
    omega
  · show (0 : Nat) = (0 + 0) % rb.capacity
    simp

theorem last_writtenIdx_eq (rb : ring_buffer T) (h : rb.WF) (hs : rb.size ≠ 0) :
    rb.last_writtenIdx = some ((rb.reader + (rb.size - 1)) % rb.capacity) := by
  obtain ⟨hlen, hsz, hr0, hrlt, hw⟩ := h
  have hcp : 0 < rb.capacity := by omega
  have hr : rb.reader < rb.capacity := hrlt (by omega)
  rw [last_writtenIdx, if_neg hs, hw, last_idx_eq hr hs]

theorem peekIdx_eq (rb : ring_buffer T) (h : rb.WF) (hs : rb.size ≠ 0) :
    rb.peekIdx = some ((rb.reader + 0) % rb.capacity) := by
  obtain ⟨hlen, hsz, hr0, hrlt, hw⟩ := h
  rw [peekIdx, if_neg hs, Nat.add_zero, Nat.mod_eq_of_lt (hrlt (by omega))]

theorem get_at (rb : ring_buffer T) (j : Nat) (h : rb.WF) (hj : j < rb.size) :
    rb.get ((rb.reader + j) % rb.capacity)
      = (ringList rb).get ⟨j, by rw [ringList_length]; exact hj⟩ := by
  rw [ringList_get]
  rfl

end RingSpecs

section SpanInvLemmas

open ring_buffer InputBuffer

theorem adjOk_cons (a b : SpanType) (l : List SpanType) :
    adjOk (a :: b :: l) = (decide (a ≠ b) && adjOk (b :: l)) := rfl

theorem adjOk_of_cons {a : SpanType} {l : List SpanType} (h : adjOk (a :: l) = true) :
    adjOk l = true := by
  cases l with
  | nil => rfl
  | cons b r =>
    rw [adjOk_cons] at h
    exact (Bool.and_eq_true_iff.mp h).2

theorem adjOk_drop (n : Nat) (l : List SpanType) (h : adjOk l = true) :
    adjOk (l.drop n) = true := by
  induction n generalizing l with
  | zero => simpa using h
  | succ m ih =>
    cases l with
    | nil => rfl
    | cons a rest => exact ih rest (adjOk_of_cons h)

theorem adjOk_append_last (l : List SpanType) (t : SpanType) (h : adjOk l = true)
    (hlast : ∀ x, l.getLast? = some x → x ≠ t) : adjOk (l ++ [t]) = true := by
  induction l with
  | nil => rfl
  | cons a rest ih =>
    cases rest with
    | nil =>
      have hat : a ≠ t := hlast a rfl
      simp [adjOk, hat]
    | cons b r2 =>
      have hab : a ≠ b := by
        rw [adjOk_cons] at h
        simpa using (Bool.and_eq_true_iff.mp h).1
      have ihr : adjOk ((b :: r2) ++ [t]) = true :=
        ih (adjOk_of_cons h) (fun x hx => hlast x (by rw [List.getLast?_cons_cons]; exact hx))
      show adjOk (a :: ((b :: r2) ++ [t])) = true
      rw [show (b :: r2) ++ [t] = b :: (r2 ++ [t]) from rfl, adjOk_cons]
      simp [hab]
      simpa using ihr

theorem map_type_set (l : List Span) (j : Nat) (x : Span) (hj : j < l.length)
    (hty : (l.get ⟨j, hj⟩).type = x.type) :
    (l.set j x).map Span.type = l.map Span.type := by
  induction l generalizing j with
  | nil => simp at hj
  | cons a rest ih =>
    cases j with
    | zero =>
      simp only [List.set, List.map_cons]
      have ha : (a :: rest).get ⟨0, hj⟩ = a := rfl
      rw [ha] at hty
      rw [← hty]
    | succ m =>
      simp only [List.set, List.map_cons]
      rw [ih m (by simpa using hj) hty]

theorem extend_last_pres (rb : ring_buffer Span) (len : Nat) (h : rb.WF) (hsz : rb.size ≠ 0) :
    (rb.setAt (rb.last_writtenIdx.getD 0)
      ⟨(rb.get (rb.last_writtenIdx.getD 0)).type,
        (rb.get (rb.last_writtenIdx.getD 0)).length + len⟩).WF ∧
    (ringList (rb.setAt (rb.last_writtenIdx.getD 0)
      ⟨(rb.get (rb.last_writtenIdx.getD 0)).type,
        (rb.get (rb.last_writtenIdx.getD 0)).length + len⟩)).map Span.type
      = (ringList rb).map Span.type := by
  have hidx : rb.last_writtenIdx.getD 0 = (rb.reader + (rb.size - 1)) % rb.capacity := by
    rw [last_writtenIdx_eq rb h hsz]
    rfl
  have hj : rb.size - 1 < rb.size := by omega
  rw [hidx]
  obtain ⟨hWF2, hRL2⟩ := setAt_spec rb (rb.size - 1)
    ⟨(rb.get ((rb.reader + (rb.size - 1)) % rb.capacity)).type,
      (rb.get ((rb.reader + (rb.size - 1)) % rb.capacity)).length + len⟩ h hj
  refine ⟨hWF2, ?_⟩
  rw [hRL2]
  apply map_type_set
  rw [get_at rb (rb.size - 1) h hj]

theorem spanKinds_eq (s : InputBuffer) : spanKinds s = (ringList s.spans).map Span.type := rfl

theorem writeSpan_pres (s : InputBuffer) (ty : SpanType) (len : Nat) (h : SpanWF s) :
    SpanWF (s._writeSpan ty len).1 := by
  obtain ⟨hWF, hAdj⟩ := h
  rw [SpanWF, spanKinds_eq]
  rw [spanKinds_eq] at hAdj
  by_cases hsz : s.spans.size = 0
  · have hlw : s.spans.last_writtenIdx = none := by
      rw [last_writtenIdx, if_pos hsz]
    have hrec : (s._writeSpan ty len).1.spans =
        (s.spans.write1 ⟨ty, 0⟩).setAt ((s.spans.write1 ⟨ty, 0⟩).last_writtenIdx.getD 0)
          ⟨((s.spans.write1 ⟨ty, 0⟩).get
              ((s.spans.write1 ⟨ty, 0⟩).last_writtenIdx.getD 0)).type,
            ((s.spans.write1 ⟨ty, 0⟩).get
              ((s.spans.write1 ⟨ty, 0⟩).last_writtenIdx.getD 0)).length + len⟩ := by
      simp only [InputBuffer._writeSpan, hlw]
    obtain ⟨hWF1, hRL1, hsz1⟩ := write1_spec s.spans (⟨ty, 0⟩ : Span) hWF
    have hne1 : (s.spans.write1 ⟨ty, 0⟩).size ≠ 0 := by omega
    obtain ⟨hWF2, hK2⟩ := extend_last_pres (s.spans.write1 ⟨ty, 0⟩) len hWF1 hne1
    refine ⟨by rw [hrec]; exact hWF2, ?_⟩
    rw [hrec, hK2, hRL1, ringList_nil _ hsz]
    rfl
  · have hlw : s.spans.last_writtenIdx
        = some ((s.spans.reader + (s.spans.size - 1)) % s.spans.capacity) :=
      last_writtenIdx_eq s.spans hWF hsz
    by_cases hty : (s.spans.get ((s.spans.reader + (s.spans.size - 1)) % s.spans.capacity)).type
        = ty
    · have hrec : (s._writeSpan ty len).1.spans =
          s.spans.setAt (s.spans.last_writtenIdx.getD 0)
            ⟨(s.spans.get (s.spans.last_writtenIdx.getD 0)).type,
              (s.spans.get (s.spans.last_writtenIdx.getD 0)).length + len⟩ := by
        simp only [InputBuffer._writeSpan, hlw, hty, if_pos]
      obtain ⟨hWF2, hK2⟩ := extend_last_pres s.spans len hWF hsz
      exact ⟨hrec ▸ hWF2, by rw [hrec, hK2]; exact hAdj⟩
    · have hrec : (s._writeSpan ty len).1.spans =
          (s.spans.write1 ⟨ty, 0⟩).setAt ((s.spans.write1 ⟨ty, 0⟩).last_writtenIdx.getD 0)
            ⟨((s.spans.write1 ⟨ty, 0⟩).get
                ((s.spans.write1 ⟨ty, 0⟩).last_writtenIdx.getD 0)).type,
              ((s.spans.write1 ⟨ty, 0⟩).get
                ((s.spans.write1 ⟨ty, 0⟩).last_writtenIdx.getD 0)).length + len⟩ := by
        simp only [InputBuffer._writeSpan, hlw, hty]
        simp
      obtain ⟨hWF1, hRL1, hsz1⟩ := write1_spec s.spans (⟨ty, 0⟩ : Span) hWF
      have hne1 : (s.spans.write1 ⟨ty, 0⟩).size ≠ 0 := by omega
      obtain ⟨hWF2, hK2⟩ := extend_last_pres (s.spans.write1 ⟨ty, 0⟩) len hWF1 hne1
      refine ⟨by rw [hrec]; exact hWF2, ?_⟩
      rw [hrec, hK2, hRL1, List.map_append,
        show List.map Span.type [(⟨ty, 0⟩ : Span)] = [ty] from rfl]
      apply adjOk_append_last _ _ hAdj
      intro x hx hxy
      apply hty
      have hlen2 : (List.map Span.type (ringList s.spans)).length = s.spans.size := by
        rw [List.length_map, ringList_length]
      have hnil : List.map Span.type (ringList s.spans) ≠ [] := by
        intro hn
        rw [hn] at hlen2
        exact hsz (by simpa using hlen2.symm)
      rw [List.getLast?_eq_getLast _ hnil, Option.some.injEq] at hx
      rw [List.getLast_eq_getElem] at hx
      rw [get_at s.spans (s.spans.size - 1) hWF (by omega), ← hxy, ← hx]
      simp only [List.getElem_map, hlen2, List.get_eq_getElem]

theorem spanWF_of_eq {s t : InputBuffer} (h : SpanWF s) (he : t.spans = s.spans) : SpanWF t := by
  obtain ⟨h1, h2⟩ := h
  rw [spanKinds_eq] at h2
  exact ⟨he ▸ h1, by rw [spanKinds_eq, he]; exact h2⟩

theorem setSpanFront_pres (s : InputBuffer) (v : Span) (h : SpanWF s) (hsz : s.spans.size ≠ 0)
    (hty : v.type = (s.spans.get s.spans.reader).type) :
    SpanWF { s with spans := s.spans.setAt s.spans.reader v } := by
  obtain ⟨hWF, hAdj⟩ := h
  have hc : 0 < s.spans.capacity := by
    obtain ⟨h1, h2, h3, h4, h5⟩ := hWF
    omega
  have hr : s.spans.reader < s.spans.capacity := hWF.2.2.2.1 (by omega)
  have hre : s.spans.reader = (s.spans.reader + 0) % s.spans.capacity := by
    rw [Nat.add_zero, Nat.mod_eq_of_lt hr]
  obtain ⟨hWF2, hRL2⟩ := setAt_spec s.spans 0 v hWF (by omega)
  have hty2 : ((ringList s.spans).get ⟨0, by rw [ringList_length]; omega⟩).type = v.type := by
    rw [← get_at s.spans 0 hWF (by omega), ← hre]
    exact hty.symm
  constructor
  · show (s.spans.setAt s.spans.reader v).WF
    rw [hre]
    exact hWF2
  · rw [spanKinds_eq] at hAdj ⊢
    show adjOk ((ringList (s.spans.setAt s.spans.reader v)).map Span.type) = true
    rw [hre, hRL2, map_type_set _ _ _ _ hty2]
    exact hAdj

theorem advanceSpans_pres (s : InputBuffer) (n : Nat) (h : SpanWF s) :
    SpanWF { s with spans := s.spans.advance n } := by
  obtain ⟨hWF, hAdj⟩ := h
  obtain ⟨hWF2, hRL2, _, _⟩ := advance_spec s.spans n hWF
  refine ⟨hWF2, ?_⟩
  rw [spanKinds_eq] at hAdj ⊢
  show adjOk ((ringList (s.spans.advance n)).map Span.type) = true
  rw [hRL2, List.map_drop]
  exact adjOk_drop n _ hAdj

theorem writeRecords_pres (s : InputBuffer) (rs : List InputRecord) (h : SpanWF s) :
    SpanWF (WriteRecords s rs).1 := by
  by_cases hrs : rs = []
  · rw [WriteRecords, if_pos hrs]
    exact h
  · rw [WriteRecords, if_neg hrs]
    exact writeSpan_pres _ SpanType.Record rs.length
      (spanWF_of_eq h rfl)

theorem writeText_pres (s : InputBuffer) (txt : List Nat) (f : TextAllocOutcome) (h : SpanWF s) :
    SpanWF (WriteText s txt f).1 := by
  by_cases htxt : txt = []
  · simp only [WriteText, writeTextBody, if_pos htxt]
    exact h
  · cases f with
    | failTextAppend =>
      simp only [WriteText, writeTextBody, if_neg htxt]
      exact h
    | failSpanWrite =>
      simp only [WriteText, writeTextBody, if_neg htxt]
      exact spanWF_of_eq h rfl
    | ok =>
      simp only [WriteText, writeTextBody, if_neg htxt]
      exact writeSpan_pres _ SpanType.Text txt.length (spanWF_of_eq h rfl)

theorem flush_pres (s : InputBuffer) (h : SpanWF s) : SpanWF (Flush s).1 := by
  obtain ⟨hWF, hAdj⟩ := h
  obtain ⟨hWF2, hRL2⟩ := clear_spec s.spans hWF
  refine ⟨hWF2, ?_⟩
  rw [spanKinds_eq]
  show adjOk ((ringList s.spans.clear).map Span.type) = true
  rw [hRL2]
  rfl

theorem switchReadingMode_spans (s : InputBuffer) (m : ReadingMode) :
    (s._switchReadingMode m).spans = s.spans := by
  rw [InputBuffer._switchReadingMode]
  split <;> rfl

theorem consumeCached_spans (s : InputBuffer) (isUnicode : Bool) (cap : Nat) :
    (s.ConsumeCached isUnicode cap).1.spans = s.spans := by
  rw [ConsumeCached]
  cases isUnicode <;> simp only [Bool.false_eq_true, if_false, if_true] <;>
    (split
     · split <;> rw [switchReadingMode_spans]
     · rw [switchReadingMode_spans])

theorem consumeSlowLoop_spans (enc : List Nat → List Nat) (segs : List (List Nat))
    (s : InputBuffer) (out : List Nat) (cap read : Nat) :
    (consumeSlowLoop enc segs s out cap read).1.spans = s.spans := by
  induction segs generalizing s out cap read with
  | nil => rfl
  | cons seg rest ih =>
    rw [consumeSlowLoop]
    split
    · split <;> rfl
    · rw [ih]

theorem consume_spans (enc : List Nat → List Nat) (s : InputBuffer) (isUnicode : Bool)
    (source : List Nat) (cap : Nat) :
    (Consume enc s isUnicode source cap).state.spans = s.spans := by
  have h1 := consumeCached_spans s isUnicode cap
  rw [Consume]
  rcases hc : s.ConsumeCached isUnicode cap with ⟨s1, out1, cap1⟩
  have h2 := consumeSlowLoop_spans enc (utf16Segments source) s1 out1 cap1 0
  rw [hc] at h1
  simp only at h1 ⊢
  split
  · exact h1
  · split
    · exact h1
    · split
      · exact h1
      · rcases hs : consumeSlowLoop enc (utf16Segments source) s1 out1 cap1 0 with ⟨s2, o2, c2, r2⟩
        rw [hs] at h2
        simp only at h2
        exact h2.trans h1

theorem peekCached_spans (s : InputBuffer) (isUnicode : Bool) (count : Nat) :
    (s.PeekCached isUnicode count).1.spans = s.spans := by
  rw [PeekCached, switchReadingMode_spans]

theorem cacheEvents_spans (s : InputBuffer) (isUnicode : Bool) (source : List InputRecord)
    (expected : Nat) : (s.CacheEvents isUnicode source expected).1.spans = s.spans := by
  rw [CacheEvents]
  split <;> rw [switchReadingMode_spans]

theorem peekIdx_facts {T : Type} [Inhabited T] (rb : ring_buffer T) (i : Nat)
    (hp : rb.peekIdx = some i) : rb.size ≠ 0 ∧ i = rb.reader := by
  rw [peekIdx] at hp
  by_cases h0 : rb.size = 0
  · rw [if_pos h0] at hp; cases hp
  · rw [if_neg h0] at hp
    exact ⟨h0, (Option.some.inj hp).symm⟩

theorem readCharRecordLoop_pres (i : Nat) (len : Nat) (s : InputBuffer) (out : List Nat)
    (remaining : Nat) (h : SpanWF s) (hsz : s.spans.size ≠ 0) (hi : i = s.spans.reader) :
    SpanWF (readCharRecordLoop i len s out remaining).1 := by
  induction len generalizing s out remaining with
  | zero => exact h
  | succ m ih =>
    rw [readCharRecordLoop]
    split
    · exact h
    · cases hp : s.records.peekIdx with
      | none => simp only [hp]; exact h
      | some j =>
        simp only [hp]
        rw [hi] at ih ⊢
        apply ih
        · exact setSpanFront_pres { s with records := s.records.advance 1 }
            ⟨(s.spans.get s.spans.reader).type, m⟩ (spanWF_of_eq h rfl) hsz rfl
        · exact hsz
        · rfl

theorem readCharLoop_pres (fuel : Nat) (s : InputBuffer) (out : List Nat) (remaining : Nat)
    (h : SpanWF s) : SpanWF (readCharLoop fuel s out remaining).1 := by
  induction fuel generalizing s out remaining with
  | zero => exact h
  | succ m ih =>
    rw [readCharLoop]
    split
    · exact h
    · cases hp : s.spans.peekIdx with
      | none => simp only [hp]; exact h
      | some i =>
        obtain ⟨hsz, hi⟩ := peekIdx_facts s.spans i hp
        simp only [hp]
        cases hty : (s.spans.get i).type with
        | Record =>
          rcases hrec : readCharRecordLoop i (s.spans.get i).length s out remaining
            with ⟨s1, out1, rem1⟩
          have hS1 : SpanWF s1 := by
            have := readCharRecordLoop_pres i (s.spans.get i).length s out remaining h hsz hi
            rw [hrec] at this
            exact this
          simp only [hrec]
          split
          · exact ih _ _ _ (advanceSpans_pres s1 1 hS1)
          · exact ih _ _ _ hS1
        | Text =>
          rcases hrd : s.text.readN (min remaining (s.spans.get i).length) with ⟨chunk, text1⟩
          simp only [hrd]
          rw [hi] at hty ⊢
          have hS2 := setSpanFront_pres { s with text := text1 }
            ⟨SpanType.Text,
              (s.spans.get s.spans.reader).length
                - min remaining (s.spans.get s.spans.reader).length⟩
            (spanWF_of_eq h rfl) hsz hty.symm
          split
          · exact ih _ _ _ (advanceSpans_pres _ 1 hS2)
          · exact ih _ _ _ hS2

theorem readCharView_pres (s : InputBuffer) (wide peek : Bool) (cap fuel : Nat)
    (h : SpanWF s) : SpanWF (ReadCharView s wide peek cap fuel).1 := by
  rw [ReadCharView]
  split
  · exact h
  · rcases hl : readCharLoop fuel s [] cap with ⟨s1, out1, rem1⟩
    have := readCharLoop_pres fuel s [] cap h
    rw [hl] at this
    simp only [hl]
    exact this

theorem readRecordTextLoop_pres (i : Nat) (len : Nat) (s : InputBuffer)
    (out : List InputRecord) (remaining : Nat) (h : SpanWF s) (hsz : s.spans.size ≠ 0)
    (hi : i = s.spans.reader) :
    SpanWF (readRecordTextLoop i len s out remaining).1 := by
  induction len generalizing s out remaining with
  | zero => exact h
  | succ m ih =>
    rw [readRecordTextLoop]
    split
    · exact h
    · cases hp : s.text.peekIdx with
      | none => simp only [hp]; exact h
      | some j =>
        simp only [hp]
        rw [hi] at ih ⊢
        apply ih
        · exact setSpanFront_pres { s with records := s.records.advance 1 }
            ⟨(s.spans.get s.spans.reader).type, m⟩ (spanWF_of_eq h rfl) hsz rfl
        · exact hsz
        · rfl

theorem readRecordLoop_pres (fuel : Nat) (s : InputBuffer) (out : List InputRecord)
    (remaining : Nat) (h : SpanWF s) : SpanWF (readRecordLoop fuel s out remaining).1 := by
  induction fuel generalizing s out remaining with
  | zero => exact h
  | succ m ih =>
    rw [readRecordLoop]
    split
    · exact h
    · cases hp : s.spans.peekIdx with
      | none => simp only [hp]; exact h
      | some i =>
        obtain ⟨hsz, hi⟩ := peekIdx_facts s.spans i hp
        simp only [hp]
        cases hty : (s.spans.get i).type with
        | Record =>
          rcases hrd : s.records.readN (min remaining (s.spans.get i).length)
            with ⟨chunk, records1⟩
          simp only [hrd]
          rw [hi] at hty ⊢
          have hS2 := setSpanFront_pres { s with records := records1 }
            ⟨SpanType.Record,
              (s.spans.get s.spans.reader).length
                - min remaining (s.spans.get s.spans.reader).length⟩
            (spanWF_of_eq h rfl) hsz hty.symm
          split
          · exact ih _ _ _ (advanceSpans_pres _ 1 hS2)
          · exact ih _ _ _ hS2
        | Text =>
          rcases hrec : readRecordTextLoop i (s.spans.get i).length s out remaining
            with ⟨s1, out1, rem1⟩
          have hS1 : SpanWF s1 := by
            have := readRecordTextLoop_pres i (s.spans.get i).length s out remaining h hsz hi
            rw [hrec] at this
            exact this
          simp only [hrec]
          split
          · exact ih _ _ _ (advanceSpans_pres s1 1 hS1)
          · exact ih _ _ _ hS1

theorem readRecordView_pres (s : InputBuffer) (wide peek : Bool) (cap fuel : Nat)
    (h : SpanWF s) : SpanWF (ReadRecordView s wide peek cap fuel).1 := by
  rw [ReadRecordView]
  split
  · exact h
  · rcases hl : readRecordLoop fuel s [] cap with ⟨s1, out1, rem1⟩
    have := readRecordLoop_pres fuel s [] cap h
    rw [hl] at this
    simp only [hl]
    exact this

theorem init_spanWF : SpanWF InputBuffer.init := by
  constructor
  · exact ⟨rfl, Nat.le_refl 0, fun _ => rfl, fun hc => absurd rfl hc, rfl⟩
  · rfl

theorem reachable_spanWF {s : InputBuffer} (h : Reachable s) : SpanWF s := by
  induction h with
  | init => exact init_spanWF
  | writeRecords rs _ ih => exact writeRecords_pres _ rs ih
  | writeText txt f _ ih => exact writeText_pres _ txt f ih
  | readChar wide peek cap fuel _ ih => exact readCharView_pres _ wide peek cap fuel ih
  | readRecord wide peek cap fuel _ ih => exact readRecordView_pres _ wide peek cap fuel ih
  | flush _ ih => exact flush_pres _ ih
  | flushAllButKeys _ ih => exact ih
  | consume enc isUnicode source cap _ ih => exact spanWF_of_eq ih (consume_spans enc _ isUnicode source cap)
  | consumeCached isUnicode cap _ ih => exact spanWF_of_eq ih (consumeCached_spans _ isUnicode cap)
  | cacheText source _ ih => exact spanWF_of_eq ih rfl
  | consumeCachedEvents isUnicode count _ ih => exact spanWF_of_eq ih rfl
  | peekCached isUnicode count _ ih => exact spanWF_of_eq ih (peekCached_spans _ isUnicode count)
  | cacheEvents isUnicode source expected _ ih =>
      exact spanWF_of_eq ih (cacheEvents_spans _ isUnicode source expected)
  | storePartial e _ ih => exact spanWF_of_eq ih rfl
  | fetchPartial _ ih => exact spanWF_of_eq ih rfl

end SpanInvLemmas

section Claims

open InputBuffer

/-- C1: the ring FIFO law fails. After writing 100 and then bulk-writing
1..16 (which grows the ring from capacity 16 to 24 while the live region
`[reader, writer)` does not wrap), reading everything back does not return the
17 items in write order: `_grow` copies `[_reader, _end)` followed by
`[_beg, _writer)` unconditionally, which is only correct for a full or
wrapped ring, and it leaves the new write cursor at
`(capacity - reader) + writer` instead of at `size`, so the subsequent bulk
copy lands in the wrong place and the read-back is a permuted mixture of data
and junk. -/
theorem c1_ring_fifo_violated_by_grow :
    (c1ring.readN 17).1 ≠ [100, 1, 2, 3, 4, 5, 6, 7, 8, 9, 10, 11, 12, 13, 14, 15, 16] ∧
    (c1ring.readN 17).1 = [8, 9, 10, 11, 12, 13, 14, 15, 16, 0, 0, 0, 0, 0, 0, 0, 100] ∧
    c1ring.size = 17 := by decide

/-- C2: the lossless-index invariant fails after a record-view `Read` over a
Text span. The Text arm of `Read(INPUT_RECORD*)` synthesizes a key event from
`_text.peek()` but then calls `_records.advance(1)`, never consuming the text
ring; after writing one text unit and reading one record the span ring is
empty while the text ring still holds one code unit, so the Text-kind span
length sum (0) no longer equals the text ring size (1). -/
theorem c2_span_index_invariant_violated :
    textSpanLenSum c2state ≠ c2state.text.size ∧
    textSpanLenSum c2state = 0 ∧ c2state.text.size = 1 ∧
    recordSpanLenSum c2state = 0 := by decide

/-- C3: the interleaved record-view read does not yield `[R1, synth(120), R2]`.
The call returns count 3, but only two records are ever stored: the Text arm
advances the record ring instead of the text ring, so R2 is silently consumed
while the Text span is being served, and the final Record span then reads zero
records while still charging the caller capacity. The text unit is also never
consumed. -/
theorem c3_interleaved_record_read_wrong :
    c3read.2.2 = 3 ∧
    c3read.2.1 = [c3R1, SynthesizeKeyEvent true 1 0 0 120 0] ∧
    c3read.2.1 ≠ [c3R1, SynthesizeKeyEvent true 1 0 0 120 0, c3R2] ∧
    c3read.1.records.size = 0 ∧
    c3read.1.text.size = 1 := by decide

/-- C4: split/resume transcoding loses the boundary for a multi-code-unit
character. The slow path counts loop iterations (`++read`, one per decoded
character) but trims the source by that count of code units
(`source.substr(read)`), so after the first call the fully-processed surrogate
pair leaves its low surrogate 56320 behind in the source. The second call
replays the cached byte 128 and then re-converts that stale low surrogate,
producing an extra byte: the concatenation of the two calls' outputs is
`[240,144,128,128,63]`, not the one-shot conversion `[240,144,128,128]`. -/
theorem c4_split_resume_duplicates_bytes :
    c4call1.source = [56320] ∧
    c4call1.output = [240, 144, 128] ∧
    c4call1.state.cachedTextReaderA = [128] ∧
    c4call2.source = [] ∧
    c4call1.output ++ c4call2.output = [240, 144, 128, 128, 63] ∧
    encodeAll encEx [55296, 56320] = [240, 144, 128, 128] ∧
    c4call1.output ++ c4call2.output ≠ encodeAll encEx [55296, 56320] := by decide

/-- C6: `GetNumberOfReadyEvents` always returns 0, even though after writing
one record the buffer is non-empty (span ring and record ring both hold one
entry); the observed body is a stub contradicting its own documentation
("Returns the number of events in the input buffer"). -/
theorem c6_ready_events_always_zero :
    (∀ s : InputBuffer, GetNumberOfReadyEvents s = 0) ∧
    GetNumberOfReadyEvents c6state = 0 ∧
    c6state.spans.size = 1 ∧
    c6state.records.size = 1 := by
  exact ⟨fun _ => rfl, rfl, by decide, by decide⟩

/-- C5: switching the reading mode to a different value empties both
conversion caches (owned buffers and reader views) through
`_switchReadingModeSlowPath`; consequently, after any state switches to a
record-view mode via `PeekCached` and then back to narrow-text via
`ConsumeCached`, the latter delivers no bytes from cache. -/
theorem c5_mode_switch_discards_caches :
    (∀ (s : InputBuffer) (m : ReadingMode), m ≠ s.readingMode →
      (s._switchReadingMode m).cachedTextA = [] ∧
      (s._switchReadingMode m).cachedTextReaderA = [] ∧
      (s._switchReadingMode m).cachedTextW = [] ∧
      (s._switchReadingMode m).cachedTextReaderW = [] ∧
      (s._switchReadingMode m).readingMode = m) ∧
    (∀ (s : InputBuffer) (n cap : Nat),
      ((PeekCached s true n).1.ConsumeCached false cap).2.1 = []) := by
  constructor
  · intro s m hm
    simp [InputBuffer._switchReadingMode, InputBuffer._switchReadingModeSlowPath, Ne.symm hm]
  · intro s n cap
    have hmode : ((PeekCached s true n).1).readingMode = ReadingMode.InputEventsW := by
      by_cases h : s.readingMode = ReadingMode.InputEventsW <;>
        simp [PeekCached, InputBuffer._switchReadingMode, InputBuffer._switchReadingModeSlowPath, h]
    have hr : (((PeekCached s true n).1)._switchReadingMode ReadingMode.StringA).cachedTextReaderA
        = [] := by
      rw [InputBuffer._switchReadingMode, if_pos]
      · rfl
      · rw [hmode]; decide
    simp [ConsumeCached, hr]

/-- C5 witness: the concrete toggle scenario. `c5cached` holds the
remainder byte 128 in the narrow cache; one `PeekCached` (record-view mode)
followed by a narrow `ConsumeCached` yields zero bytes from cache, and a
direct mode switch empties the caches. -/
theorem c5_witness :
    c5cached.cachedTextReaderA = [128] ∧
    ((PeekCached c5cached true 1).1.ConsumeCached false 4).2.1 = [] ∧
    (c5cached._switchReadingMode ReadingMode.InputEventsW).cachedTextReaderA = [] := by
  refine ⟨by decide, c5_mode_switch_discards_caches.2 c5cached 1 4, ?_⟩
  exact (c5_mode_switch_discards_caches.1 c5cached ReadingMode.InputEventsW (by decide)).2.1

/-- C8: notification discipline of `_writeSpan`. A successful non-empty write
of records or text signals the OS readiness object (`SetEvent`) exactly when
the span ring was empty immediately before the write, and always wakes the
waiting readers. -/
theorem c8_notification_discipline :
    ∀ (s : InputBuffer) (rs : List InputRecord) (txt : List Nat),
      (rs ≠ [] →
        (Notif.setEvent ∈ (WriteRecords s rs).2 ↔ s.spans.size = 0) ∧
        Notif.wakeReaders ∈ (WriteRecords s rs).2) ∧
      (txt ≠ [] →
        (Notif.setEvent ∈ (WriteText s txt TextAllocOutcome.ok).2 ↔ s.spans.size = 0) ∧
        Notif.wakeReaders ∈ (WriteText s txt TextAllocOutcome.ok).2) := by
  intro s rs txt
  constructor
  · intro hrs
    simp only [WriteRecords, if_neg hrs, InputBuffer._writeSpan, ring_buffer.last_writtenIdx]
    split <;> simp_all
  · intro htxt
    simp only [WriteText, writeTextBody, if_neg htxt, InputBuffer._writeSpan,
      ring_buffer.last_writtenIdx]
    split <;> simp_all

/-- C8 witness: writing one record into the empty initial buffer signals the
readiness object; writing text into the resulting non-empty buffer does not,
but still wakes readers. -/
theorem c8_witness :
    Notif.setEvent ∈ (WriteRecords InputBuffer.init [c3R1]).2 ∧
    Notif.wakeReaders ∈ (WriteText c6state [120] TextAllocOutcome.ok).2 ∧
    ¬ Notif.setEvent ∈ (WriteText c6state [120] TextAllocOutcome.ok).2 := by
  refine ⟨((c8_notification_discipline InputBuffer.init [c3R1] [120]).1 (by decide)).1.mpr (by decide),
    ((c8_notification_discipline c6state [c3R1] [120]).2 (by decide)).2, ?_⟩
  have h := ((c8_notification_discipline c6state [c3R1] [120]).2 (by decide)).1
  intro hmem
  exact absurd (h.mp hmem) (by decide)

/-- C9: text-write failures are swallowed. Whenever the body of `Write(text)`
throws, `CATCH_LOG` returns the partial state and no notifications to the
caller; an allocation failure during the text-ring append is a real
possibility on non-empty text, and then the call returns with the buffer
unchanged (the text is lost); a failure during the span write likewise leaves
the span ring without any record of the appended text. -/
theorem c9_text_write_failures_swallowed :
    ∀ (s : InputBuffer) (txt : List Nat) (f : TextAllocOutcome),
      (∀ e, writeTextBody s txt f = Except.error e → WriteText s txt f = (e, [])) ∧
      (txt ≠ [] → writeTextBody s txt TextAllocOutcome.failTextAppend = Except.error s) ∧
      WriteText s txt TextAllocOutcome.failTextAppend = (s, []) ∧
      (WriteText s txt TextAllocOutcome.failSpanWrite).1.spans = s.spans ∧
      (WriteText s txt TextAllocOutcome.failSpanWrite).2 = [] := by
  intro s txt f
  refine ⟨fun e he => by simp [WriteText, he], fun htxt => by simp [writeTextBody, htxt], ?_, ?_, ?_⟩
  all_goals by_cases htxt : txt = [] <;> simp [WriteText, writeTextBody, htxt]

/-- C9 witness: the concrete failing append of the text unit 120 to the empty
buffer throws inside the body yet the public call returns normally with the
buffer unchanged. -/
theorem c9_witness :
    writeTextBody InputBuffer.init [120] TextAllocOutcome.failTextAppend
      = Except.error InputBuffer.init ∧
    WriteText InputBuffer.init [120] TextAllocOutcome.failTextAppend = (InputBuffer.init, []) := by
  refine ⟨(c9_text_write_failures_swallowed InputBuffer.init [120]
    TextAllocOutcome.failTextAppend).2.1 (by decide), ?_⟩
  exact (c9_text_write_failures_swallowed InputBuffer.init [120]
    TextAllocOutcome.failTextAppend).2.2.1

/-- Arithmetic of one `til::bytes_transfer` step: copying `min` either fills
the target or exhausts the source view. -/
theorem drain_arith (cap : Nat) (l : List Nat) :
    cap - min cap l.length = 0 ∨ l.drop (min cap l.length) = [] := by
  rcases Nat.le_total cap l.length with h | h
  · left; simp [Nat.min_eq_left h]
  · right; simp [Nat.min_eq_right h]

/-- C10: `ConsumeCached(bool, span<char>&)` always leaves the target full or
the selected direction's cache reader empty, so the assertions at the head of
`Consume`'s copy paths (which require the matching cache to be empty when both
source and target are non-empty after the drain) can never fail. -/
theorem c10_consume_cached_drains :
    ∀ (s : InputBuffer) (isUnicode : Bool) (cap : Nat),
      ((s.ConsumeCached isUnicode cap).2.2 = 0 ∨
        (if isUnicode then (s.ConsumeCached isUnicode cap).1.cachedTextReaderW
         else (s.ConsumeCached isUnicode cap).1.cachedTextReaderA) = []) ∧
      ((s.ConsumeCached isUnicode cap).2.2 ≠ 0 →
        (if isUnicode then (s.ConsumeCached isUnicode cap).1.cachedTextReaderW
         else (s.ConsumeCached isUnicode cap).1.cachedTextReaderA) = []) := by
  intro s isUnicode cap
  have key : (s.ConsumeCached isUnicode cap).2.2 = 0 ∨
      (if isUnicode then (s.ConsumeCached isUnicode cap).1.cachedTextReaderW
       else (s.ConsumeCached isUnicode cap).1.cachedTextReaderA) = [] := by
    cases isUnicode
    · simp only [ConsumeCached, Bool.false_eq_true, if_false]
      split
      · rcases drain_arith cap (s._switchReadingMode ReadingMode.StringA).cachedTextReaderA
          with h | h
        · left; simpa using h
        · right; split <;> simpa using h
      · next h => right; simpa using h
    · simp only [ConsumeCached, if_true]
      split
      · rcases drain_arith cap (s._switchReadingMode ReadingMode.StringW).cachedTextReaderW
          with h | h
        · left; simpa using h
        · right; split <;> simpa using h
      · next h => right; simpa using h
  exact ⟨key, fun hne => key.resolve_left hne⟩

/-- C10 witness: a concrete drain of the cached remainder state from the C4/C5
scenario into a one-byte target (target fills) and into a large target (cache
empties). -/
theorem c10_witness :
    ((c5cached.ConsumeCached false 1).2.2 = 0 ∨ (c5cached.ConsumeCached false 1).1.cachedTextReaderA = []) ∧
    (c5cached.ConsumeCached false 8).1.cachedTextReaderA = [] := by
  refine ⟨by simpa using (c10_consume_cached_drains c5cached false 1).1, ?_⟩
  simpa using (c10_consume_cached_drains c5cached false 8).2 (by decide)

/-- C7: the span-merge invariant. In every state reachable through the public
interface no two adjacent live spans share a kind (a matching write extends
the last span in place); concretely, Write(L"ab") then Write(L"cd") leaves
exactly one Text span of length 4, while Write(L"ab"), Write(record),
Write(L"cd") leaves the three spans Text:2, Record:1, Text:2. -/
theorem c7_span_merge_invariant :
    (∀ s : InputBuffer, Reachable s → adjOk (spanKinds s) = true) ∧
    ring_buffer.ringList c7twoTexts.spans = [⟨SpanType.Text, 4⟩] ∧
    ring_buffer.ringList c7interleaved.spans
      = [⟨SpanType.Text, 2⟩, ⟨SpanType.Record, 1⟩, ⟨SpanType.Text, 2⟩] := by
  refine ⟨fun s h => (reachable_spanWF h).2, by decide, by decide⟩

/-- C7 witness: the invariant applied to the concrete reachable state of the
second example. -/
theorem c7_witness : adjOk (spanKinds c7interleaved) = true := by
  apply c7_span_merge_invariant.1
  exact Reachable.writeText [99, 100] TextAllocOutcome.ok
    (Reachable.writeRecords [c3R1]
      (Reachable.writeText [97, 98] TextAllocOutcome.ok Reachable.init))

end Claims

end TerminalHost
